import Mathlib

/-!
Shallow embedding of the clique voting snapshot machinery of
`src/ethdb/typedcursor/internal/gen.go` (the `clique` part of the file:
`Vote`, `Tally`, `Snapshot`, `cast`, `uncast`, `apply`, `signers`,
`inturn`, `store`, `save`, `saveSnaps` and the async-writer batching).

Modelling conventions:
* `common.Address` and `common.Hash` are fixed-width byte strings ordered by
  `bytes.Compare`; we model both as `Nat` (order-isomorphic to the
  lexicographic order on fixed-width strings).
* Go maps are modelled as association lists with lookup semantics:
  `mapLookup` finds the first binding, `mapInsert` replaces the binding,
  `mapErase` removes the key (all occurrences, as `delete` leaves the key
  absent).  The set `Snapshot.Signers` is a `List` used as a set
  (`setInsert` / `setErase`).
* Go `int` is `Int`; `uint64` is `Nat` (no arithmetic in the modelled code
  overflows 64 bits for inputs a chain can produce, and the guarded
  subtraction `number - limit` is only taken when `number >= limit`,
  matching `Nat` subtraction).
* `ecrecover(header, sigcache)` is an external collaborator; its result is
  carried on the header as `SigSigner` (`none` models a recovery error).
* In-place mutation of `*Snapshot` becomes explicit state passing; an
  erroring step returns the state mutated so far together with the error,
  matching the fact that the Go code leaves partial mutations behind.
-/

namespace Clique

abbrev Address := Nat
abbrev BlockHash := Nat

/-- Struct `Vote` (gen.go 179-184). -/
structure Vote where
  Signer : Address
  Block : Nat
  Address : Address
  Authorize : Bool
deriving DecidableEq, Repr

/-- Struct `Tally` (gen.go 188-191); `Votes` is a Go `int`. -/
structure Tally where
  Authorize : Bool
  Votes : Int
deriving DecidableEq, Repr

/-- The persisted fields of `Snapshot` (gen.go 194-206). -/
structure Snapshot where
  Number : Nat
  Hash : BlockHash
  Signers : List Address
  Recents : List (Nat × Address)
  Votes : List Vote
  Tally : List (Address × Tally)
deriving DecidableEq, Repr

/-- The fields of `types.Header` that `apply` reads, plus the result of the
external `ecrecover` collaborator (`none` models a recovery error) and the
header's hash. -/
structure Header where
  Number : Nat
  HashVal : BlockHash
  Coinbase : Address
  Nonce : List Nat
  SigSigner : Option Address
deriving DecidableEq, Repr

/-- The errors `apply` can return; `ecrecoverFailed` stands for a propagated
signature-recovery error. -/
inductive CliqueError where
  | invalidVotingChain
  | unauthorizedSigner
  | recentlySigned
  | invalidVote
  | ecrecoverFailed
deriving DecidableEq, Repr

/-- Constant `nonceAuthVote`: the sentinel nonce 0xffffffffffffffff. -/
def nonceAuthVote : List Nat := [255, 255, 255, 255, 255, 255, 255, 255]

/-- Constant `nonceDropVote`: the sentinel nonce 0x0000000000000000. -/
def nonceDropVote : List Nat := [0, 0, 0, 0, 0, 0, 0, 0]

/-- Go map lookup on the association-list model. -/
def mapLookup {α β : Type} [DecidableEq α] : List (α × β) → α → Option β
  | [], _ => none
  | p :: rest, k => if p.1 = k then some p.2 else mapLookup rest k

/-- Go map assignment `m[k] = v` on the association-list model. -/
def mapInsert {α β : Type} [DecidableEq α] : List (α × β) → α → β → List (α × β)
  | [], k, v => [(k, v)]
  | p :: rest, k, v => if p.1 = k then (k, v) :: rest else p :: mapInsert rest k v

/-- Go `delete(m, k)` on the association-list model: afterwards the key is
absent. -/
def mapErase {α β : Type} [DecidableEq α] : List (α × β) → α → List (α × β)
  | [], _ => []
  | p :: rest, k => if p.1 = k then mapErase rest k else p :: mapErase rest k

/-- Go set-map insertion `m[a] = struct{}{}`. -/
def setInsert (l : List Address) (a : Address) : List Address :=
  if a ∈ l then l else l ++ [a]

/-- Go set-map `delete(m, a)`: afterwards the element is absent. -/
def setErase : List Address → Address → List Address
  | [], _ => []
  | x :: rest, a => if x = a then setErase rest a else x :: setErase rest a

/-- Method `Snapshot.validVote` (gen.go 291-294). -/
def validVote (s : Snapshot) (address : Address) (authorize : Bool) : Bool :=
  let signer := decide (address ∈ s.Signers)
  (signer && !authorize) || (!signer && authorize)

/-- Method `Snapshot.cast` (gen.go 297-310); the `Bool` is the Go return value. -/
def cast (s : Snapshot) (address : Address) (authorize : Bool) : Snapshot × Bool :=
  if !(validVote s address authorize) then (s, false)
  else
    match mapLookup s.Tally address with
    | some old => ({ s with Tally := mapInsert s.Tally address ⟨old.Authorize, old.Votes + 1⟩ }, true)
    | none => ({ s with Tally := mapInsert s.Tally address ⟨authorize, 1⟩ }, true)

/-- Method `Snapshot.uncast` (gen.go 313-331); the `Bool` is the Go return value. -/
def uncast (s : Snapshot) (address : Address) (authorize : Bool) : Snapshot × Bool :=
  match mapLookup s.Tally address with
  | none => (s, false)
  | some tally =>
    if tally.Authorize != authorize then (s, false)
    else if tally.Votes > 1 then
      ({ s with Tally := mapInsert s.Tally address ⟨tally.Authorize, tally.Votes - 1⟩ }, true)
    else ({ s with Tally := mapErase s.Tally address }, true)

/-- The vote-replacement scan of `apply` (gen.go 386-395): find the first
vote with the given signer and candidate, uncast it from the tally and drop
it from the chronological list (`break` after one).  Returns the resulting
vote list and the snapshot with the updated tally. -/
def discardLoop (sig benef : Address) : List Vote → Snapshot → List Vote × Snapshot
  | [], s => ([], s)
  | v :: rest, s =>
    if v.Signer = sig ∧ v.Address = benef then (rest, (uncast s v.Address v.Authorize).1)
    else
      let r := discardLoop sig benef rest s
      (v :: r.1, r.2)

/-- gen.go 386-395 applied to the snapshot's own vote list. -/
def discardPrev (s : Snapshot) (sig benef : Address) : Snapshot :=
  let r := discardLoop sig benef s.Votes s
  { r.2 with Votes := r.1 }

/-- The deauthorized-signer purge of `apply` (gen.go 426-436): the forward
scan with index decrement removes every vote cast by `sig`, uncasting each
from the tally. -/
def purgeLoop (sig : Address) : List Vote → Snapshot → List Vote × Snapshot
  | [], s => ([], s)
  | v :: rest, s =>
    if v.Signer = sig then purgeLoop sig rest (uncast s v.Address v.Authorize).1
    else
      let r := purgeLoop sig rest s
      (v :: r.1, r.2)

/-- gen.go 426-436 applied to the snapshot's own vote list. -/
def purgeVotesBySigner (sig : Address) (s : Snapshot) : Snapshot :=
  let r := purgeLoop sig s.Votes s
  { r.2 with Votes := r.1 }

/-- Checkpoint reset (gen.go 361-365): on an epoch boundary clear the
pending votes and the tally. -/
def checkpointReset (epoch : Nat) (number : Nat) (s : Snapshot) : Snapshot :=
  if number % epoch = 0 then { s with Votes := [], Tally := [] } else s

/-- Recents-window eviction (gen.go 367-369 and, with the shrunk signer
set, 421-424): `limit := len(s.Signers)/2 + 1; if number >= limit`
delete `s.Recents[number-limit]`. -/
def evictRecent (number : Nat) (s : Snapshot) : Snapshot :=
  if s.Signers.length / 2 + 1 ≤ number then
    { s with Recents := mapErase s.Recents (number - (s.Signers.length / 2 + 1)) }
  else s

/-- gen.go 383: `s.Recents[number] = signer`. -/
def recordRecent (number : Nat) (signer : Address) (s : Snapshot) : Snapshot :=
  { s with Recents := mapInsert s.Recents number signer }

/-- The nonce switch of gen.go 397-405: `some authorize` for the two
sentinel values, `none` for anything else (`errInvalidVote`). -/
def decodeVote (nonce : List Nat) : Option Bool :=
  if nonce = nonceAuthVote then some true
  else if nonce = nonceDropVote then some false
  else none

/-- gen.go 406-413: cast the vote and, when the tally was touched, append
the chronological vote record. -/
def castAndRecord (number : Nat) (signer benef : Address) (authorize : Bool) (s : Snapshot) : Snapshot :=
  let c := cast s benef authorize
  if c.2 then { c.1 with Votes := c.1.Votes ++ [⟨signer, number, benef, authorize⟩] }
  else c.1

/-- The per-header phase of `apply` up to and including the vote cast and
chronological append (gen.go 360-413): checkpoint reset, recents eviction,
signer authorization checks, recents recording, same-candidate vote
replacement, nonce decoding, cast.  On error the snapshot mutated so far is
returned together with the error, as the Go code leaves those mutations on
the receiver. -/
def applyHeaderPre (epoch : Nat) (s : Snapshot) (h : Header) : Snapshot × Option CliqueError :=
  let s1 := checkpointReset epoch h.Number s
  let s2 := evictRecent h.Number s1
  -- Resolve the authorization key and check against signers (371-383)
  match h.SigSigner with
  | none => (s2, some .ecrecoverFailed)
  | some signer =>
    if signer ∉ s2.Signers then (s2, some .unauthorizedSigner)
    else if s2.Recents.any (fun p => p.2 = signer) then (s2, some .recentlySigned)
    else
      -- Header authorized, discard any previous votes from the signer (385-395)
      let s4 := discardPrev (recordRecent h.Number signer s2) signer h.Coinbase
      -- Tally up the new vote from the signer (396-413)
      match decodeVote h.Nonce with
      | none => (s4, some .invalidVote)
      | some authorize => (castAndRecord h.Number signer h.Coinbase authorize s4, none)

/-- The majority-resolution phase of `apply` (gen.go 414-446): if the
beneficiary's tally (Go zero value when absent) strictly exceeds half the
pre-change signer count, change membership, re-evict the recents window on a
drop and purge the deauthorized signer's votes, then drop every vote for
the beneficiary and delete its tally entry. -/
def resolveMajority (number : Nat) (benef : Address) (s : Snapshot) : Snapshot :=
  let t := match mapLookup s.Tally benef with
    | some t => t
    | none => ⟨false, 0⟩
  if ((s.Signers.length / 2 : Nat) : Int) < t.Votes then
    let s' :=
      if t.Authorize then { s with Signers := setInsert s.Signers benef }
      else
        -- 419-436: shrink the signer set, re-evict, purge the dropped
        -- signer's votes
        purgeVotesBySigner benef (evictRecent number { s with Signers := setErase s.Signers benef })
    -- Discard any previous votes around the just changed account (438-444)
    let s'' := { s' with Votes := s'.Votes.filter (fun v => !(v.Address = benef : Bool)) }
    { s'' with Tally := mapErase s''.Tally benef }
  else s

/-- One iteration of the header loop of `apply` (gen.go 357-452, logging
omitted as pure observability). -/
def applyHeader (epoch : Nat) (s : Snapshot) (h : Header) : Snapshot × Option CliqueError :=
  match applyHeaderPre epoch s h with
  | (s', none) => (resolveMajority h.Number h.Coinbase s', none)
  | (s', some e) => (s', some e)

/-- The header loop of `apply`, in iteration order; stops at the first
error, keeping the state mutated so far. -/
def applyHeaders (epoch : Nat) : Snapshot → List Header → Snapshot × Option CliqueError
  | s, [] => (s, none)
  | s, h :: rest =>
    match applyHeader epoch s h with
    | (s', none) => applyHeaders epoch s' rest
    | (s', some e) => (s', some e)

/-- The contiguity scan of `apply` (gen.go 342-346):
`headers[i+1].Number == headers[i].Number+1` for every adjacent pair. -/
def contiguousB : List Header → Bool
  | [] => true
  | [_] => true
  | a :: b :: rest => (b.Number = a.Number + 1 : Bool) && contiguousB (b :: rest)

/-- Method `Snapshot.apply` (gen.go 335-460).  Note the Go loop iterates
`i := len(headers)-1; i >= 0; i--`, i.e. it processes the headers in
reverse (newest-first) order, hence the `.reverse`. -/
def apply (epoch : Nat) (s : Snapshot) (headers : List Header) : Snapshot × Option CliqueError :=
  match headers with
  | [] => (s, none)
  | h0 :: _ =>
    if !(contiguousB headers) then (s, some .invalidVotingChain)
    else if h0.Number ≠ s.Number + 1 then (s, some .invalidVotingChain)
    else
      match applyHeaders epoch s headers.reverse with
      | (s', none) =>
        ({ s' with
            Number := s.Number + headers.length,
            Hash := match headers.getLast? with
              | some hl => hl.HashVal
              | none => s'.Hash }, none)
      | (s', some e) => (s', some e)

/-- The order the specification describes: the same `apply`, but with the
header loop running oldest-to-newest (a left fold in ascending block-number
order).  Written from the spec's words, for comparison with `apply`. -/
def applyOldestFirst (epoch : Nat) (s : Snapshot) (headers : List Header) : Snapshot × Option CliqueError :=
  match headers with
  | [] => (s, none)
  | h0 :: _ =>
    if !(contiguousB headers) then (s, some .invalidVotingChain)
    else if h0.Number ≠ s.Number + 1 then (s, some .invalidVotingChain)
    else
      match applyHeaders epoch s headers with
      | (s', none) =>
        ({ s' with
            Number := s.Number + headers.length,
            Hash := match headers.getLast? with
              | some hl => hl.HashVal
              | none => s'.Hash }, none)
      | (s', some e) => (s', some e)

/-- Method `Snapshot.signers` (gen.go 463-470): the authorized signers in
ascending byte order (`sort.Sort(signersAscending(...))`). -/
def signersAsc (s : Snapshot) : List Address :=
  s.Signers.mergeSort (fun a b => a ≤ b)

/-- The linear scan of `inturn` (gen.go 475-477): index of the signer in
the sorted list, or its length when absent. -/
def scanOffset : List Address → Address → Nat
  | [], _ => 0
  | x :: rest, a => if x = a then 0 else scanOffset rest a + 1

/-- Method `Snapshot.inturn` (gen.go 473-479): `signers, offset := s.signers(), 0`
followed by the linear scan and the modulus comparison. -/
def inturn (s : Snapshot) (number : Nat) (signer : Address) : Bool :=
  decide (number % (signersAsc s).length = scanOffset (signersAsc s) signer)

/-!  Persistence model (gen.go 264-287, 558-583).

The key/value database is the external collaborator of the spec: the model
carries the durably written entries plus environment-chosen behaviour of its
`Has` and `Append` primitives.  `json.Marshal` of the snapshot's exported
fields cannot fail, so serialization is the identity embedding of the
persisted fields and a blob is just the snapshot it encodes. -/

abbrev Blob := Snapshot

/-- The abstract database handle: `data` is what has been durably appended,
`hasResult num hash = (found, hasErr)` models `db.Has`, and
`appendFails num hash` models whether `db.Append` returns an error for that
key. -/
structure DB where
  data : List ((Nat × BlockHash) × Blob)
  hasResult : Nat → BlockHash → Bool × Bool
  appendFails : Nat → BlockHash → Bool

/-- Function `hasSnapshotData` (gen.go 268-270). -/
def hasSnapshotData (db : DB) (num : Nat) (hash : BlockHash) : Bool × Bool :=
  db.hasResult num hash

/-- Primitive `db.Append` for the clique bucket: on an error nothing is written and
the error is reported to the caller. -/
def dbAppend (db : DB) (num : Nat) (hash : BlockHash) (blob : Blob) : DB × Bool :=
  if db.appendFails num hash then (db, true)
  else ({ db with data := db.data ++ [((num, hash), blob)] }, false)

/-- Method `storage.save` with `force = true` (gen.go 558-583, the synchronous
genesis path 576-582): re-check existence, append, and on an append error
only log it — `save` returns nothing. -/
def saveForced (db : DB) (number : Nat) (hash : BlockHash) (blob : Blob) : DB :=
  let r := hasSnapshotData db number hash
  if !r.1 || r.2 then
    -- on error: log.Error("can't store a snapshot", ...) and fall through
    (dbAppend db number hash blob).1
  else db

/-- Method `Snapshot.store` with `force = true` (gen.go 273-287): the existence
pre-check, serialization (which cannot fail for this structure, so the only
`return err` path is dead), and the handoff to `save`.  The returned option
is the Go `error` result. -/
def store (db : DB) (s : Snapshot) : DB × Option Unit :=
  let r := hasSnapshotData db s.Number s.Hash
  if r.1 && !r.2 then (db, none)
  else (saveForced db s.Number s.Hash s, none)

/-!  Async batched writer ordering model (gen.go 495-556, 585-609).

The consumer goroutine accumulates admitted items into `snaps` and tracks
`isSorted`; `saveSnaps` sorts only when that flag is false.  The model below
captures exactly that per-batch data flow: `accumulate` is the fold of the
consumer's append-and-track step over the items admitted into one batch (in
arrival order), and `flushOrder` is the order in which `saveSnaps` appends
them to the physical write-batch. -/

/-- Struct `snapObj` (gen.go 489-493); `hash` is a `BlockHash`, written `Nat`. -/
structure SnapObj where
  number : Nat
  hash : Nat
  blob : List Nat
deriving DecidableEq, Repr

/-- The comparison given to `sort.SliceStable` in `saveSnaps`
(gen.go 591-594): number ascending, then hash byte-order ascending. -/
def snapLess (a b : SnapObj) : Bool :=
  a.number < b.number || (a.number = b.number && a.hash < b.hash)

/-- One consumer step (gen.go 520-526): append the admitted item and clear
`isSorted` when the previously last buffered item has a larger number.  The
tracking compares numbers only. -/
def appendSnap (acc : List SnapObj × Bool) (snap : SnapObj) : List SnapObj × Bool :=
  let snaps := acc.1 ++ [snap]
  let stillSorted :=
    acc.2 && !(match acc.1.getLast? with
               | some prev => decide (snap.number < prev.number)
               | none => false)
  (snaps, stillSorted)

/-- The buffer and `isSorted` flag after the consumer has admitted the given
items, starting from an empty batch (gen.go 507, 513). -/
def accumulate (arrivals : List SnapObj) : List SnapObj × Bool :=
  arrivals.foldl appendSnap ([], true)

/-- Function `saveSnaps` (gen.go 585-609): the order in which the buffered items are
appended to the physical write-batch — sorted with `sort.SliceStable` only
when the tracked flag says arrivals were out of order. -/
def saveSnapsOrder (snaps : List SnapObj) (isSorted : Bool) : List SnapObj :=
  if snaps.isEmpty then []
  else if !isSorted && 1 < snaps.length then snaps.mergeSort (fun a b => !(snapLess b a))
  else snaps

/-- The append order of one physical write-batch for a given arrival
sequence. -/
def flushOrder (arrivals : List SnapObj) : List SnapObj :=
  saveSnapsOrder (accumulate arrivals).1 (accumulate arrivals).2

/-- Non-decreasing `(number, hash)` lexicographic order between adjacent
batch items, as the spec claims for every flushed batch. -/
def sortedByNumHashB : List SnapObj → Bool
  | [] => true
  | [_] => true
  | a :: b :: rest =>
    (a.number < b.number || (a.number = b.number && a.hash ≤ b.hash)) && sortedByNumHashB (b :: rest)

/-- Non-decreasing block numbers between adjacent batch items. -/
def numNonDecB : List SnapObj → Bool
  | [] => true
  | [_] => true
  | a :: b :: rest => (a.number ≤ b.number : Bool) && numNonDecB (b :: rest)

/-- The running order constraint the consumer's `isSorted` tracking
enforces: the next number is at least the previously appended one. -/
def chainFrom : Option Nat → List SnapObj → Bool
  | _, [] => true
  | none, x :: rest => chainFrom (some x.number) rest
  | some p, x :: rest => (p ≤ x.number : Bool) && chainFrom (some x.number) rest

/-- Every tally entry carries at least one vote. -/
def tallyGe1 (s : Snapshot) : Prop := ∀ p ∈ s.Tally, (1 : Int) ≤ p.2.Votes

/-- No two entries of the chronological vote list share both signer and
candidate. -/
def pairUnique (l : List Vote) : Prop :=
  l.Pairwise (fun v w => ¬(v.Signer = w.Signer ∧ v.Address = w.Address))

/-! Concrete instances used by the claim-level theorems below.  Signer
addresses are small numbers (1, 2, 3), candidate addresses start at 10. -/

/-- Snapshot at block 0 with signers {1, 2, 3} and no pending state. -/
def sC1 : Snapshot := ⟨0, 0, [1, 2, 3], [], [], []⟩

/-- Two contiguous headers: block 1 signed by 2 voting to authorize 10, and
checkpoint block 2 (epoch 2) signed by 3 voting to authorize 20. -/
def hsC1 : List Header := [⟨1, 11, 10, nonceAuthVote, some 2⟩, ⟨2, 22, 20, nonceAuthVote, some 3⟩]

def sC2 : Snapshot := ⟨0, 0, [1, 2, 3], [], [], []⟩
def hC2a : Header := ⟨1, 11, 10, nonceAuthVote, some 1⟩
def hC2b : Header := ⟨2, 22, 11, nonceAuthVote, some 2⟩
def hC2c : Header := ⟨3, 33, 12, nonceAuthVote, some 1⟩

/-- The snapshot after applying blocks 1, 2, 3 (signed by 1, 2, 1; voting to
authorize 10, 11, 12 respectively) one `apply` call each, epoch 100. -/
def sC2final : Snapshot :=
  (apply 100 ((apply 100 ((apply 100 sC2 [hC2a]).1) [hC2b]).1) [hC2c]).1

def sC3 : Snapshot := ⟨5, 9, [1, 2], [], [], []⟩

/-- A header run with a number gap (6 then 8). -/
def hsC3gap : List Header := [⟨6, 1, 10, nonceAuthVote, some 1⟩, ⟨8, 2, 11, nonceAuthVote, some 2⟩]

/-- Snapshot at block 1: signers {1, 2, 3}, block 1 signed by 2 which
voted to authorize 10 (one pending vote). -/
def sC4 : Snapshot := ⟨1, 0, [1, 2, 3], [(1, 2)], [⟨2, 1, 10, true⟩], [(10, ⟨true, 1⟩)]⟩

/-- Block 2 signed by 3, also voting to authorize 10. -/
def hC4 : Header := ⟨2, 77, 10, nonceAuthVote, some 3⟩

/-- The state `applyHeaderPre` produces from `sC4` and `hC4`: the second
vote for 10 is tallied, bringing its tally to 2 > 3/2. -/
def s1C4 : Snapshot :=
  ⟨1, 0, [1, 2, 3], [(1, 2), (2, 3)], [⟨2, 1, 10, true⟩, ⟨3, 2, 10, true⟩], [(10, ⟨true, 2⟩)]⟩

/-- An empty database whose `Append` always fails. -/
def dbC5 : DB := ⟨[], fun _ _ => (false, false), fun _ _ => true⟩
def sC5 : Snapshot := ⟨7, 3, [1], [], [], []⟩

/-- Two writer items with equal numbers and strictly decreasing hashes. -/
def arrC6 : List SnapObj := [⟨5, 2, []⟩, ⟨5, 1, []⟩]

def sC7 : Snapshot := ⟨0, 0, [3, 1, 2], [], [], []⟩
def sC8 : Snapshot := ⟨0, 0, [1, 2], [], [], [(9, ⟨true, 1⟩)]⟩
def sC10 : Snapshot := ⟨0, 0, [3, 1, 2], [], [], []⟩

end Clique

namespace Clique

/-! Association-list map lemmas. -/

theorem mapLookup_mapErase {α β : Type} [DecidableEq α] (l : List (α × β)) (k : α) :
    mapLookup (mapErase l k) k = none := by
  induction l with
  | nil => rfl
  | cons p rest ih =>
    by_cases h : p.1 = k
    · simpa [mapErase, h] using ih
    · simpa [mapErase, mapLookup, h] using ih

theorem mem_mapErase {α β : Type} [DecidableEq α] {p : α × β} {l : List (α × β)} {k : α}
    (h : p ∈ mapErase l k) : p ∈ l := by
  induction l with
  | nil => exact absurd h (by simp [mapErase])
  | cons q rest ih =>
    by_cases hq : q.1 = k
    · rw [mapErase, if_pos hq] at h
      exact List.mem_cons_of_mem _ (ih h)
    · rw [mapErase, if_neg hq] at h
      rcases List.mem_cons.mp h with h | h
      · exact h ▸ List.mem_cons_self _ _
      · exact List.mem_cons_of_mem _ (ih h)

theorem mem_mapInsert {α β : Type} [DecidableEq α] {p : α × β} {l : List (α × β)} {k : α} {v : β}
    (h : p ∈ mapInsert l k v) : p = (k, v) ∨ p ∈ l := by
  induction l with
  | nil => simpa [mapInsert] using h
  | cons q rest ih =>
    by_cases hq : q.1 = k
    · rw [mapInsert, if_pos hq] at h
      rcases List.mem_cons.mp h with h | h
      · exact Or.inl h
      · exact Or.inr (List.mem_cons_of_mem _ h)
    · rw [mapInsert, if_neg hq] at h
      rcases List.mem_cons.mp h with h | h
      · exact Or.inr (h ▸ List.mem_cons_self _ _)
      · rcases ih h with h | h
        · exact Or.inl h
        · exact Or.inr (List.mem_cons_of_mem _ h)

theorem mapLookup_mem {α β : Type} [DecidableEq α] {l : List (α × β)} {k : α} {v : β}
    (h : mapLookup l k = some v) : (k, v) ∈ l := by
  induction l with
  | nil => exact absurd h (by simp [mapLookup])
  | cons q rest ih =>
    by_cases hq : q.1 = k
    · rw [mapLookup, if_pos hq] at h
      have : q = (k, v) := by
        obtain ⟨q1, q2⟩ := q
        cases hq
        cases h
        rfl
      exact this ▸ List.mem_cons_self _ _
    · rw [mapLookup, if_neg hq] at h
      exact List.mem_cons_of_mem _ (ih h)

theorem mem_setInsert {l : List Address} {a b : Address} :
    a ∈ setInsert l b ↔ a ∈ l ∨ a = b := by
  unfold setInsert
  by_cases h : b ∈ l
  · rw [if_pos h]
    constructor
    · exact Or.inl
    · rintro (ha | rfl)
      · exact ha
      · exact h
  · rw [if_neg h]
    simp [List.mem_append]

theorem mem_setErase {l : List Address} {a b : Address} :
    a ∈ setErase l b ↔ a ∈ l ∧ a ≠ b := by
  induction l with
  | nil => simp [setErase]
  | cons x rest ih =>
    by_cases hx : x = b
    · subst hx
      rw [setErase, if_pos rfl, ih]
      constructor
      · rintro ⟨hm, hne⟩
        exact ⟨List.mem_cons_of_mem _ hm, hne⟩
      · rintro ⟨hm, hne⟩
        rcases List.mem_cons.mp hm with rfl | hm
        · exact absurd rfl hne
        · exact ⟨hm, hne⟩
    · rw [setErase, if_neg hx]
      constructor
      · intro hm
        rcases List.mem_cons.mp hm with rfl | hm
        · exact ⟨List.mem_cons_self _ _, hx⟩
        · obtain ⟨h1, h2⟩ := ih.mp hm
          exact ⟨List.mem_cons_of_mem _ h1, h2⟩
      · rintro ⟨hm, hne⟩
        rcases List.mem_cons.mp hm with rfl | hm
        · exact List.mem_cons_self _ _
        · exact List.mem_cons_of_mem _ (ih.mpr ⟨hm, hne⟩)

/-! `signers` and `inturn` lemmas. -/

theorem signersAsc_length (s : Snapshot) : (signersAsc s).length = s.Signers.length :=
  (List.mergeSort_perm s.Signers _).length_eq

theorem mem_signersAsc {s : Snapshot} {a : Address} : a ∈ signersAsc s ↔ a ∈ s.Signers :=
  (List.mergeSort_perm s.Signers _).mem_iff

theorem scanOffset_of_not_mem {l : List Address} {a : Address} (h : a ∉ l) :
    scanOffset l a = l.length := by
  induction l with
  | nil => rfl
  | cons x rest ih =>
    rw [List.mem_cons, not_or] at h
    have hx : ¬(x = a) := fun e => h.1 e.symm
    simp [scanOffset, hx, ih h.2]

/-! Async-writer batching lemmas (C6). -/

theorem foldl_appendSnap_fst (l : List SnapObj) :
    ∀ acc : List SnapObj × Bool, (List.foldl appendSnap acc l).1 = acc.1 ++ l := by
  induction l with
  | nil => intro acc; simp
  | cons x rest ih =>
    intro acc
    rw [List.foldl_cons, ih]
    show (acc.1 ++ [x]) ++ rest = acc.1 ++ x :: rest
    simp

theorem foldl_appendSnap_false (l : List SnapObj) :
    ∀ buf : List SnapObj, (List.foldl appendSnap (buf, false) l).2 = false := by
  induction l with
  | nil => intro buf; rfl
  | cons x rest ih =>
    intro buf
    rw [List.foldl_cons]
    show (List.foldl appendSnap (buf ++ [x], false) rest).2 = false
    exact ih _

theorem foldl_appendSnap_sorted (l : List SnapObj) :
    ∀ buf : List SnapObj, (List.foldl appendSnap (buf, true) l).2 = true →
      chainFrom (buf.getLast?.map SnapObj.number) l = true := by
  induction l with
  | nil => intro buf _; cases buf.getLast? <;> rfl
  | cons x rest ih =>
    intro buf h
    rw [List.foldl_cons] at h
    cases hl : buf.getLast? with
    | none =>
      have hstep : appendSnap (buf, true) x = (buf ++ [x], true) := by
        simp [appendSnap, hl]
      rw [hstep] at h
      have hrec := ih (buf ++ [x]) h
      rw [List.getLast?_concat] at hrec
      exact hrec
    | some prev =>
      by_cases hlt : x.number < prev.number
      · have hstep : appendSnap (buf, true) x = (buf ++ [x], false) := by
          simp [appendSnap, hl, hlt]
        rw [hstep, foldl_appendSnap_false] at h
        exact absurd h (by simp)
      · have hstep : appendSnap (buf, true) x = (buf ++ [x], true) := by
          simp [appendSnap, hl, hlt]
        rw [hstep] at h
        have hrec := ih (buf ++ [x]) h
        rw [List.getLast?_concat] at hrec
        show (decide (prev.number ≤ x.number) && chainFrom (some x.number) rest) = true
        rw [Bool.and_eq_true]
        exact ⟨decide_eq_true (Nat.le_of_not_lt hlt), hrec⟩

theorem numNonDecB_of_chainFrom : ∀ (l : List SnapObj) (o : Option Nat),
    chainFrom o l = true → numNonDecB l = true
  | [], _, _ => rfl
  | [_], _, _ => rfl
  | x :: y :: t, o, h => by
    have h2 : chainFrom (some x.number) (y :: t) = true := by
      cases o with
      | none => exact h
      | some p =>
        have h' : (decide (p ≤ x.number) && chainFrom (some x.number) (y :: t)) = true := h
        exact (Bool.and_eq_true _ _ |>.mp h').2
    have h3 : (decide (x.number ≤ y.number) && chainFrom (some y.number) t) = true := h2
    have hxy := (Bool.and_eq_true _ _ |>.mp h3).1
    have hrest : numNonDecB (y :: t) = true := numNonDecB_of_chainFrom (y :: t) (some x.number) h2
    show (decide (x.number ≤ y.number) && numNonDecB (y :: t)) = true
    rw [Bool.and_eq_true]
    exact ⟨hxy, hrest⟩

theorem bnot_true_iff {x : Bool} : (!x) = true ↔ ¬(x = true) := by
  cases x <;> simp

theorem snapLess_iff (a b : SnapObj) :
    snapLess a b = true ↔ a.number < b.number ∨ (a.number = b.number ∧ a.hash < b.hash) := by
  simp [snapLess]

theorem snapLe_trans (a b c : SnapObj) :
    (!(snapLess b a)) = true → (!(snapLess c b)) = true → (!(snapLess c a)) = true := by
  intro h1 h2
  rw [bnot_true_iff, snapLess_iff] at h1 h2 ⊢
  omega

theorem snapLe_total (a b : SnapObj) :
    ((!(snapLess b a)) || (!(snapLess a b))) = true := by
  rw [Bool.or_eq_true, bnot_true_iff, bnot_true_iff, snapLess_iff, snapLess_iff]
  omega

theorem numNonDecB_of_pairwise : ∀ l : List SnapObj,
    l.Pairwise (fun a b => (!(snapLess b a)) = true) → numNonDecB l = true
  | [], _ => rfl
  | [_], _ => rfl
  | x :: y :: t, h => by
    rw [List.pairwise_cons] at h
    have hxy := h.1 y (List.mem_cons_self y t)
    have hrest := numNonDecB_of_pairwise (y :: t) h.2
    show (decide (x.number ≤ y.number) && numNonDecB (y :: t)) = true
    rw [Bool.and_eq_true]
    refine ⟨?_, hrest⟩
    rw [bnot_true_iff, snapLess_iff] at hxy
    exact decide_eq_true (by omega)

theorem numNonDecB_short {l : List SnapObj} (h : l.length ≤ 1) : numNonDecB l = true := by
  match l, h with
  | [], _ => rfl
  | [_], _ => rfl

/-- C6 counterexample: the items `(number 5, hash 2)` then `(number 5,
hash 1)` arrive in that order; the consumer's `isSorted` tracking compares
numbers only, so the flag stays `true`, `saveSnaps` skips the sort, and the
physical batch is appended with equal numbers but hashes in descending
byte order — not sorted by `(number, hash)` ascending as the claim states. -/
theorem flush_equal_numbers_unsorted_hashes :
    (accumulate arrC6).2 = true ∧
    flushOrder arrC6 = arrC6 ∧
    sortedByNumHashB (flushOrder arrC6) = false :=
  ⟨rfl, rfl, rfl⟩

/-- C6 (amended): within any one physical write-batch the appended items
are in non-decreasing order by block number; full `(number, hash)` order is
guaranteed only when a number inversion was observed in arrival order
(which triggers the stable sort), so items arriving with equal numbers may
stay out of hash order. -/
theorem flush_nondecreasing_numbers (arrivals : List SnapObj) :
    numNonDecB (flushOrder arrivals) = true := by
  have hfst : (accumulate arrivals).1 = arrivals := by
    unfold accumulate
    rw [foldl_appendSnap_fst]
    rfl
  unfold flushOrder saveSnapsOrder
  cases hflag : (accumulate arrivals).2 with
  | true =>
    by_cases he : (accumulate arrivals).1.isEmpty
    · rw [if_pos he]; rfl
    · rw [if_neg he]
      simp only [Bool.not_true, Bool.false_and, Bool.false_eq_true, if_false]
      rw [hfst]
      have hs := foldl_appendSnap_sorted arrivals []
      exact numNonDecB_of_chainFrom arrivals none
        (hs (by unfold accumulate at hflag; exact hflag))
  | false =>
    by_cases he : (accumulate arrivals).1.isEmpty
    · rw [if_pos he]; rfl
    · rw [if_neg he]
      by_cases hlen : 1 < (accumulate arrivals).1.length
      · simp only [Bool.not_false, Bool.true_and, decide_eq_true hlen, if_true]
        exact numNonDecB_of_pairwise _ (List.sorted_mergeSort snapLe_trans snapLe_total _)
      · simp only [Bool.not_false, Bool.true_and, decide_eq_false hlen, Bool.false_eq_true,
          if_false]
        exact numNonDecB_short (Nat.not_lt.mp hlen)

/-- C7: the in-turn designation is periodic in the block number with period
the signer-set size: for every signer currently in the set,
`inturn(number + len(signers), addr) = inturn(number, addr)`. -/
theorem inturn_periodic (s : Snapshot) (number : Nat) (a : Address)
    (hmem : a ∈ s.Signers) :
    inturn s (number + s.Signers.length) a = inturn s number a := by
  unfold inturn
  rw [← signersAsc_length s, Nat.add_mod_right]

/-- Witness for C7 at a concrete snapshot: signers {1, 2, 3} (stored out of
order), address 2, number 4. -/
theorem inturn_periodic_witness :
    2 ∈ sC7.Signers ∧ inturn sC7 (4 + sC7.Signers.length) 2 = inturn sC7 4 2 :=
  ⟨by decide, inturn_periodic sC7 4 2 (by decide)⟩

/-- C10: for a non-empty signer set, `inturn` returns `false` on every
address outside the set: the linear scan leaves the offset at
`len(signers)`, which `number % len(signers)` can never equal. -/
theorem inturn_nonsigner_false (s : Snapshot) (number : Nat) (a : Address)
    (hne : s.Signers ≠ []) (hmem : a ∉ s.Signers) : inturn s number a = false := by
  unfold inturn
  have hnot : a ∉ signersAsc s := fun h => hmem (mem_signersAsc.mp h)
  rw [scanOffset_of_not_mem hnot]
  have hpos : 0 < (signersAsc s).length := by
    rw [signersAsc_length]
    exact List.length_pos.mpr hne
  exact decide_eq_false (Nat.ne_of_lt (Nat.mod_lt _ hpos))

/-- Witness for C10 at a concrete snapshot: signers {1, 2, 3}, address 9
outside the set, number 4. -/
theorem inturn_nonsigner_false_witness :
    sC10.Signers ≠ [] ∧ 9 ∉ sC10.Signers ∧ inturn sC10 4 9 = false :=
  ⟨by decide, by decide, inturn_nonsigner_false sC10 4 9 (by decide) (by decide)⟩

/-! Component-preservation lemmas for the snapshot operations. -/

theorem cast_Signers (s : Snapshot) (a : Address) (b : Bool) :
    (cast s a b).1.Signers = s.Signers := by
  unfold cast
  split
  · rfl
  · cases mapLookup s.Tally a <;> rfl

theorem cast_Votes (s : Snapshot) (a : Address) (b : Bool) :
    (cast s a b).1.Votes = s.Votes := by
  unfold cast
  split
  · rfl
  · cases mapLookup s.Tally a <;> rfl

theorem uncast_Signers (s : Snapshot) (a : Address) (b : Bool) :
    (uncast s a b).1.Signers = s.Signers := by
  unfold uncast
  cases mapLookup s.Tally a
  · rfl
  · dsimp only
    split
    · rfl
    · split <;> rfl

theorem uncast_Votes (s : Snapshot) (a : Address) (b : Bool) :
    (uncast s a b).1.Votes = s.Votes := by
  unfold uncast
  cases mapLookup s.Tally a
  · rfl
  · dsimp only
    split
    · rfl
    · split <;> rfl

theorem discardLoop_Signers (sig benef : Address) :
    ∀ (l : List Vote) (s : Snapshot), (discardLoop sig benef l s).2.Signers = s.Signers
  | [], _ => rfl
  | v :: rest, s => by
    unfold discardLoop
    split
    · exact uncast_Signers s v.Address v.Authorize
    · exact discardLoop_Signers sig benef rest s

theorem purgeLoop_Signers (sig : Address) :
    ∀ (l : List Vote) (s : Snapshot), (purgeLoop sig l s).2.Signers = s.Signers
  | [], _ => rfl
  | v :: rest, s => by
    unfold purgeLoop
    split
    · rw [purgeLoop_Signers sig rest _]
      exact uncast_Signers s v.Address v.Authorize
    · exact purgeLoop_Signers sig rest s

theorem discardLoop_sublist (sig benef : Address) :
    ∀ (l : List Vote) (s : Snapshot), (discardLoop sig benef l s).1.Sublist l
  | [], _ => List.Sublist.refl _
  | v :: rest, s => by
    unfold discardLoop
    split
    · exact List.sublist_cons_self v rest
    · exact List.Sublist.cons₂ v (discardLoop_sublist sig benef rest s)

theorem purgeLoop_sublist (sig : Address) :
    ∀ (l : List Vote) (s : Snapshot), (purgeLoop sig l s).1.Sublist l
  | [], _ => List.Sublist.refl _
  | v :: rest, s => by
    unfold purgeLoop
    split
    · exact List.Sublist.trans (purgeLoop_sublist sig rest _) (List.sublist_cons_self v rest)
    · exact List.Sublist.cons₂ v (purgeLoop_sublist sig rest s)

/-- After the vote-replacement scan, no remaining vote carries the scanned
(signer, candidate) pair, as long as no two votes shared a pair before. -/
theorem discardLoop_nomatch (sig benef : Address) :
    ∀ (l : List Vote) (s : Snapshot), pairUnique l →
      ∀ v ∈ (discardLoop sig benef l s).1, ¬(v.Signer = sig ∧ v.Address = benef)
  | [], _, _, v, hv => absurd hv (by simp [discardLoop])
  | w :: rest, s, hp, v, hv => by
    rw [pairUnique, List.pairwise_cons] at hp
    revert hv
    unfold discardLoop
    split
    · intro hv hmatch
      rename_i hw
      exact hp.1 v hv ⟨hw.1.trans hmatch.1.symm, hw.2.trans hmatch.2.symm⟩
    · intro hv
      rcases List.mem_cons.mp hv with rfl | hv'
      · rename_i hw
        exact hw
      · exact discardLoop_nomatch sig benef rest s hp.2 v hv'

/-! `tallyGe1` preservation (C8). -/

theorem tallyGe1_cast (s : Snapshot) (a : Address) (b : Bool) (h : tallyGe1 s) :
    tallyGe1 (cast s a b).1 := by
  unfold cast
  split
  · exact h
  · cases hl : mapLookup s.Tally a with
    | some old =>
      intro p hp
      rcases mem_mapInsert hp with rfl | hp'
      · have h1 : (1 : Int) ≤ old.Votes := h (a, old) (mapLookup_mem hl)
        show (1 : Int) ≤ old.Votes + 1
        omega
      · exact h p hp'
    | none =>
      intro p hp
      rcases mem_mapInsert hp with rfl | hp'
      · show (1 : Int) ≤ 1
        omega
      · exact h p hp'

theorem tallyGe1_uncast (s : Snapshot) (a : Address) (b : Bool) (h : tallyGe1 s) :
    tallyGe1 (uncast s a b).1 := by
  unfold uncast
  cases hl : mapLookup s.Tally a with
  | none => exact h
  | some t =>
    dsimp only
    split
    · exact h
    · split
      · rename_i hgt
        intro p hp
        rcases mem_mapInsert hp with rfl | hp'
        · show (1 : Int) ≤ t.Votes - 1
          omega
        · exact h p hp'
      · intro p hp
        exact h p (mem_mapErase hp)

theorem tallyGe1_discardLoop (sig benef : Address) :
    ∀ (l : List Vote) (s : Snapshot), tallyGe1 s → tallyGe1 (discardLoop sig benef l s).2
  | [], _, h => h
  | v :: rest, s, h => by
    unfold discardLoop
    split
    · exact tallyGe1_uncast s v.Address v.Authorize h
    · exact tallyGe1_discardLoop sig benef rest s h

theorem tallyGe1_purgeLoop (sig : Address) :
    ∀ (l : List Vote) (s : Snapshot), tallyGe1 s → tallyGe1 (purgeLoop sig l s).2
  | [], _, h => h
  | v :: rest, s, h => by
    unfold purgeLoop
    split
    · exact tallyGe1_purgeLoop sig rest _ (tallyGe1_uncast s v.Address v.Authorize h)
    · exact tallyGe1_purgeLoop sig rest s h

/-! Phase-level component lemmas. -/

theorem checkpointReset_Signers (epoch number : Nat) (s : Snapshot) :
    (checkpointReset epoch number s).Signers = s.Signers := by
  unfold checkpointReset; split <;> rfl

theorem evictRecent_Signers (number : Nat) (s : Snapshot) :
    (evictRecent number s).Signers = s.Signers := by
  unfold evictRecent; split <;> rfl

theorem evictRecent_Votes (number : Nat) (s : Snapshot) :
    (evictRecent number s).Votes = s.Votes := by
  unfold evictRecent; split <;> rfl

theorem evictRecent_Tally (number : Nat) (s : Snapshot) :
    (evictRecent number s).Tally = s.Tally := by
  unfold evictRecent; split <;> rfl

theorem discardPrev_Signers (s : Snapshot) (sig benef : Address) :
    (discardPrev s sig benef).Signers = s.Signers :=
  discardLoop_Signers sig benef s.Votes s

theorem purgeVotesBySigner_Signers (sig : Address) (s : Snapshot) :
    (purgeVotesBySigner sig s).Signers = s.Signers :=
  purgeLoop_Signers sig s.Votes s

theorem castAndRecord_Signers (number : Nat) (signer benef : Address) (authorize : Bool)
    (s : Snapshot) : (castAndRecord number signer benef authorize s).Signers = s.Signers := by
  unfold castAndRecord
  dsimp only
  split
  · exact cast_Signers s benef authorize
  · exact cast_Signers s benef authorize

theorem applyHeaderPre_Signers (epoch : Nat) (s : Snapshot) (h : Header) :
    (applyHeaderPre epoch s h).1.Signers = s.Signers := by
  have hbase : (evictRecent h.Number (checkpointReset epoch h.Number s)).Signers = s.Signers := by
    rw [evictRecent_Signers, checkpointReset_Signers]
  have hmid : ∀ signer,
      (discardPrev (recordRecent h.Number signer (evictRecent h.Number (checkpointReset epoch h.Number s)))
        signer h.Coinbase).Signers = s.Signers := by
    intro signer
    rw [discardPrev_Signers]
    exact hbase
  simp only [applyHeaderPre]
  split
  · exact hbase
  · split
    · exact hbase
    · split
      · exact hbase
      · split
        · exact hmid _
        · rw [castAndRecord_Signers]
          exact hmid _

/-! `tallyGe1` across the phases and `apply` (C8). -/

theorem tallyGe1_checkpointReset (epoch number : Nat) (s : Snapshot) (h : tallyGe1 s) :
    tallyGe1 (checkpointReset epoch number s) := by
  unfold checkpointReset
  split
  · intro p hp
    exact absurd hp (by simp)
  · exact h

theorem tallyGe1_evictRecent (number : Nat) (s : Snapshot) (h : tallyGe1 s) :
    tallyGe1 (evictRecent number s) := by
  intro p hp
  rw [evictRecent_Tally] at hp
  exact h p hp

theorem tallyGe1_discardPrev (s : Snapshot) (sig benef : Address) (h : tallyGe1 s) :
    tallyGe1 (discardPrev s sig benef) :=
  tallyGe1_discardLoop sig benef s.Votes s h

theorem tallyGe1_purgeVotesBySigner (sig : Address) (s : Snapshot) (h : tallyGe1 s) :
    tallyGe1 (purgeVotesBySigner sig s) :=
  tallyGe1_purgeLoop sig s.Votes s h

theorem tallyGe1_castAndRecord (number : Nat) (signer benef : Address) (authorize : Bool)
    (s : Snapshot) (h : tallyGe1 s) :
    tallyGe1 (castAndRecord number signer benef authorize s) := by
  unfold castAndRecord
  dsimp only
  split
  · exact fun p hp => tallyGe1_cast s benef authorize h p hp
  · exact tallyGe1_cast s benef authorize h

theorem tallyGe1_applyHeaderPre (epoch : Nat) (s : Snapshot) (h : Header) (hs : tallyGe1 s) :
    tallyGe1 (applyHeaderPre epoch s h).1 := by
  have h2 := tallyGe1_evictRecent h.Number _ (tallyGe1_checkpointReset epoch h.Number s hs)
  simp only [applyHeaderPre]
  split
  · exact h2
  · split
    · exact h2
    · split
      · exact h2
      · split
        · exact tallyGe1_discardPrev _ _ _ h2
        · exact tallyGe1_castAndRecord _ _ _ _ _ (tallyGe1_discardPrev _ _ _ h2)

theorem tallyGe1_resolveMajority (number : Nat) (benef : Address) (s : Snapshot)
    (hs : tallyGe1 s) : tallyGe1 (resolveMajority number benef s) := by
  simp only [resolveMajority]
  split
  · intro p hp
    have hp' := mem_mapErase hp
    revert hp'
    split
    · intro hp'
      exact hs p hp'
    · intro hp'
      refine tallyGe1_purgeVotesBySigner benef _ (tallyGe1_evictRecent number _ ?_) p hp'
      exact fun q hq => hs q hq
  · exact hs

theorem tallyGe1_applyHeader (epoch : Nat) (s : Snapshot) (h : Header) (hs : tallyGe1 s) :
    tallyGe1 (applyHeader epoch s h).1 := by
  unfold applyHeader
  cases hpre : applyHeaderPre epoch s h with
  | mk s' e =>
    have h' : tallyGe1 s' := by
      have := tallyGe1_applyHeaderPre epoch s h hs
      rwa [hpre] at this
    cases e with
    | none => exact tallyGe1_resolveMajority _ _ _ h'
    | some e => exact h'

theorem tallyGe1_applyHeaders (epoch : Nat) :
    ∀ (hs : List Header) (s : Snapshot), tallyGe1 s → tallyGe1 (applyHeaders epoch s hs).1
  | [], _, h => h
  | hd :: tl, s, h => by
    unfold applyHeaders
    cases hpre : applyHeader epoch s hd with
    | mk s' e =>
      have h' : tallyGe1 s' := by
        have := tallyGe1_applyHeader epoch s hd h
        rwa [hpre] at this
      cases e with
      | none => exact tallyGe1_applyHeaders epoch tl s' h'
      | some e => exact h'

theorem tallyGe1_apply (epoch : Nat) (s : Snapshot) (hs : List Header) (h : tallyGe1 s) :
    tallyGe1 (apply epoch s hs).1 := by
  unfold apply
  cases hs with
  | nil => exact h
  | cons h0 t =>
    dsimp only
    split
    · exact h
    · split
      · exact h
      · cases hap : applyHeaders epoch s (h0 :: t).reverse with
        | mk s' e =>
          have h' : tallyGe1 s' := by
            have := tallyGe1_applyHeaders epoch (h0 :: t).reverse s h
            rwa [hap] at this
          cases e with
          | none => exact h'
          | some e => exact h'

/-- C8: every tally entry holding at least one vote is invariant under
`cast`, under `uncast` (which deletes an entry rather than letting its
count reach zero), and under `apply` — on the final state whether the call
succeeds or fails (the model returns the partially mutated snapshot on
failure, as the Go code leaves it on the receiver). -/
theorem tally_votes_positive_invariant (s : Snapshot) (h : tallyGe1 s) :
    (∀ a authorize, tallyGe1 (cast s a authorize).1) ∧
    (∀ a authorize, tallyGe1 (uncast s a authorize).1) ∧
    (∀ epoch hs, tallyGe1 (apply epoch s hs).1) :=
  ⟨fun a b => tallyGe1_cast s a b h,
   fun a b => tallyGe1_uncast s a b h,
   fun epoch hs => tallyGe1_apply epoch s hs h⟩

/-- Witness for C8 at a concrete snapshot with one tally entry and one
applied header. -/
theorem tally_votes_positive_invariant_witness :
    tallyGe1 sC8 ∧
    tallyGe1 (cast sC8 9 true).1 ∧
    tallyGe1 (uncast sC8 9 true).1 ∧
    tallyGe1 (apply 100 sC8 [⟨1, 5, 9, nonceAuthVote, some 1⟩]).1 :=
  ⟨by unfold tallyGe1; decide,
   (tally_votes_positive_invariant sC8 (by unfold tallyGe1; decide)).1 9 true,
   (tally_votes_positive_invariant sC8 (by unfold tallyGe1; decide)).2.1 9 true,
   (tally_votes_positive_invariant sC8 (by unfold tallyGe1; decide)).2.2 100
     [⟨1, 5, 9, nonceAuthVote, some 1⟩]⟩

/-! `pairUnique` across the phases and `apply` (C2). -/

theorem pairUnique_checkpointReset (epoch number : Nat) (s : Snapshot) (h : pairUnique s.Votes) :
    pairUnique (checkpointReset epoch number s).Votes := by
  unfold checkpointReset
  split
  · exact List.Pairwise.nil
  · exact h

theorem pairUnique_evictRecent (number : Nat) (s : Snapshot) (h : pairUnique s.Votes) :
    pairUnique (evictRecent number s).Votes := by
  rw [evictRecent_Votes]
  exact h

theorem pairUnique_discardPrev (s : Snapshot) (sig benef : Address) (h : pairUnique s.Votes) :
    pairUnique (discardPrev s sig benef).Votes :=
  List.Pairwise.sublist (discardLoop_sublist sig benef s.Votes s) h

theorem pairUnique_castAndRecord (number : Nat) (sig benef : Address) (authorize : Bool)
    (s : Snapshot) (h : pairUnique s.Votes)
    (hno : ∀ v ∈ s.Votes, ¬(v.Signer = sig ∧ v.Address = benef)) :
    pairUnique (castAndRecord number sig benef authorize s).Votes := by
  unfold castAndRecord
  dsimp only
  split
  · show pairUnique ((cast s benef authorize).1.Votes ++ [⟨sig, number, benef, authorize⟩])
    rw [pairUnique, List.pairwise_append]
    rw [cast_Votes]
    refine ⟨h, List.pairwise_singleton _ _, ?_⟩
    intro a ha b hb
    rcases List.mem_singleton.mp hb with rfl
    exact hno a ha
  · show pairUnique (cast s benef authorize).1.Votes
    rw [cast_Votes]
    exact h

theorem pairUnique_applyHeaderPre (epoch : Nat) (s : Snapshot) (h : Header)
    (hp : pairUnique s.Votes) : pairUnique (applyHeaderPre epoch s h).1.Votes := by
  have h2 := pairUnique_evictRecent h.Number _ (pairUnique_checkpointReset epoch h.Number s hp)
  simp only [applyHeaderPre]
  split
  · exact h2
  · split
    · exact h2
    · split
      · exact h2
      · split
        · exact pairUnique_discardPrev _ _ _ h2
        · refine pairUnique_castAndRecord _ _ _ _ _ (pairUnique_discardPrev _ _ _ h2) ?_
          intro v hv
          exact discardLoop_nomatch _ _ _ _ h2 v hv

theorem pairUnique_resolveMajority (number : Nat) (benef : Address) (s : Snapshot)
    (hp : pairUnique s.Votes) : pairUnique (resolveMajority number benef s).Votes := by
  simp only [resolveMajority]
  split
  · show pairUnique (List.filter _ _)
    refine List.Pairwise.sublist (List.filter_sublist _) ?_
    split
    · exact hp
    · refine List.Pairwise.sublist (purgeLoop_sublist benef _ _) ?_
      rw [evictRecent_Votes]
      exact hp
  · exact hp

theorem pairUnique_applyHeader (epoch : Nat) (s : Snapshot) (h : Header)
    (hp : pairUnique s.Votes) : pairUnique (applyHeader epoch s h).1.Votes := by
  unfold applyHeader
  cases hpre : applyHeaderPre epoch s h with
  | mk s' e =>
    have h' : pairUnique s'.Votes := by
      have := pairUnique_applyHeaderPre epoch s h hp
      rwa [hpre] at this
    cases e with
    | none => exact pairUnique_resolveMajority _ _ _ h'
    | some e => exact h'

theorem pairUnique_applyHeaders (epoch : Nat) :
    ∀ (hs : List Header) (s : Snapshot), pairUnique s.Votes →
      pairUnique (applyHeaders epoch s hs).1.Votes
  | [], _, h => h
  | hd :: tl, s, h => by
    unfold applyHeaders
    cases hpre : applyHeader epoch s hd with
    | mk s' e =>
      have h' : pairUnique s'.Votes := by
        have := pairUnique_applyHeader epoch s hd h
        rwa [hpre] at this
      cases e with
      | none => exact pairUnique_applyHeaders epoch tl s' h'
      | some e => exact h'

theorem pairUnique_apply (epoch : Nat) (s : Snapshot) (hs : List Header)
    (h : pairUnique s.Votes) : pairUnique (apply epoch s hs).1.Votes := by
  unfold apply
  cases hs with
  | nil => exact h
  | cons h0 t =>
    dsimp only
    split
    · exact h
    · split
      · exact h
      · cases hap : applyHeaders epoch s (h0 :: t).reverse with
        | mk s' e =>
          have h' : pairUnique s'.Votes := by
            have := pairUnique_applyHeaders epoch (h0 :: t).reverse s h
            rwa [hap] at this
          cases e with
          | none => exact h'
          | some e => exact h'


/-- C1 (the code processes headers newest-first): `apply`'s loop runs
`i := len(headers)-1; i >= 0; i--`, so on the contiguity-accepted run
`hsC1` (blocks 1 and 2, epoch 2, block 2 a checkpoint) the checkpoint
clears the state BEFORE block 1's vote is tallied instead of after, and the
result differs from the oldest-to-newest left fold the claim describes:
the actual `apply` keeps two tally entries where ascending processing
leaves one. -/
theorem apply_not_oldest_first :
    contiguousB hsC1 = true ∧
    hsC1.head?.map Header.Number = some (sC1.Number + 1) ∧
    (apply 2 sC1 hsC1).2 = none ∧
    (applyOldestFirst 2 sC1 hsC1).2 = none ∧
    (apply 2 sC1 hsC1).1.Tally.length = 2 ∧
    (applyOldestFirst 2 sC1 hsC1).1.Tally.length = 1 ∧
    (apply 2 sC1 hsC1).1 ≠ (applyOldestFirst 2 sC1 hsC1).1 := by
  refine ⟨rfl, rfl, rfl, rfl, rfl, rfl, ?_⟩
  decide

/-- C2 counterexample: after three successful `apply` calls (blocks 1, 2, 3
signed by 1, 2, 1, proposing to authorize candidates 10, 11, 12), signer 1
holds two outstanding votes at once — for 10 and for 12.  The replacement
scan of gen.go 387 matches same signer AND same candidate, so signer 1's
earlier vote for a different candidate is neither uncast nor removed,
refuting "any earlier entry ... for any candidate ... is uncast" and "at
most one outstanding vote per signer". -/
theorem apply_two_outstanding_votes :
    (apply 100 ((apply 100 ((apply 100 sC2 [hC2a]).1) [hC2b]).1) [hC2c]).2 = none ∧
    (sC2final.Votes.filter (fun v => decide (v.Signer = 1))).length = 2 := by
  refine ⟨rfl, ?_⟩
  decide

/-- C2 (amended): the replacement step uncasts and removes an earlier vote
by the recovered signer for the SAME candidate only; consequently the
invariant that holds at every point is one outstanding vote per
(signer, candidate) pair: if no two entries of `votes` share both signer
and candidate, the same is true after any single header step and after any
`apply` call (successful or failed). -/
theorem apply_votes_pair_unique (epoch : Nat) (s : Snapshot) (h : Header) (hs : List Header)
    (hp : pairUnique s.Votes) :
    pairUnique (applyHeader epoch s h).1.Votes ∧ pairUnique (apply epoch s hs).1.Votes :=
  ⟨pairUnique_applyHeader epoch s h hp, pairUnique_apply epoch s hs hp⟩

/-- Witness for the amended C2 at a concrete snapshot and header run. -/
theorem apply_votes_pair_unique_witness :
    pairUnique sC2.Votes ∧ pairUnique (apply 100 sC2 [hC2a] ).1.Votes :=
  ⟨by unfold pairUnique; decide,
   (apply_votes_pair_unique 100 sC2 hC2a [hC2a] (by unfold pairUnique; decide)).2⟩

/-- C3 counterexample: `apply` explicitly accepts the EMPTY header sequence
(gen.go 337-339 "Allow passing in no headers for cleaner code"): it
returns success with the snapshot unchanged, not `errInvalidVotingChain`
as the claim states for empty sequences. -/
theorem apply_empty_headers_ok :
    apply 30000 sC3 [] = (sC3, none) := rfl

/-- C3 (amended): an empty header sequence is a no-op returning success
with the snapshot unchanged; every NON-empty sequence with two consecutive
numbers not differing by exactly one, or whose first number is not
`snapshot.Number + 1`, is rejected with `InvalidVotingChain` and the
snapshot is returned entirely unchanged (`Number` not partially
advanced). -/
theorem apply_invalid_chain_rejected (epoch : Nat) (s : Snapshot) (hs : List Header) :
    apply epoch s [] = (s, none) ∧
    (hs ≠ [] →
      (contiguousB hs = false ∨ hs.head?.map Header.Number ≠ some (s.Number + 1)) →
      apply epoch s hs = (s, some CliqueError.invalidVotingChain)) := by
  refine ⟨rfl, ?_⟩
  intro hne hviol
  cases hs with
  | nil => exact absurd rfl hne
  | cons h0 t =>
    rcases hviol with hv | hv
    · unfold apply
      rw [hv]
      rfl
    · have hnum : h0.Number ≠ s.Number + 1 := by
        intro he
        exact hv (by simp [he])
      unfold apply
      dsimp only
      split
      · rfl
      · rfl

/-- Witness for C3 at a concrete snapshot: the gapped run `hsC3gap`
(numbers 6 then 8) is rejected and the snapshot is unchanged. -/
theorem apply_invalid_chain_rejected_witness :
    hsC3gap ≠ [] ∧
    contiguousB hsC3gap = false ∧
    apply 30000 sC3 hsC3gap = (sC3, some CliqueError.invalidVotingChain) :=
  ⟨by decide, by decide,
   (apply_invalid_chain_rejected 30000 sC3 hsC3gap).2 (by decide) (Or.inl (by decide))⟩

/-- C5 counterexample: with `force = true`, the snapshot absent from the
database and the underlying `Append` failing, `store` still returns no
error (the failure is only logged inside `save`, gen.go 579-581, and
`save` has no error return at all) and nothing is durably written. -/
theorem store_forced_append_failure_swallowed :
    dbC5.appendFails sC5.Number sC5.Hash = true ∧
    (hasSnapshotData dbC5 sC5.Number sC5.Hash).1 = false ∧
    store dbC5 sC5 = (dbC5, none) :=
  ⟨rfl, rfl, rfl⟩

/-- C5 (amended): on the forced path a failing database write is logged
and swallowed: `store` returns nil (success) and the blob is lost; the
storage error is NOT propagated to `store`'s caller.  (`store` can only
propagate a serialization error, which cannot occur for this structure.) -/
theorem store_forced_no_error_propagation (db : DB) (s : Snapshot)
    (hmiss : (hasSnapshotData db s.Number s.Hash).1 = false)
    (hfail : db.appendFails s.Number s.Hash = true) :
    store db s = (db, none) := by
  have hr : (db.hasResult s.Number s.Hash).1 = false := hmiss
  simp only [store, saveForced, dbAppend, hasSnapshotData, hr, hfail]
  simp

/-- Witness for the amended C5 at the concrete failing database. -/
theorem store_forced_no_error_propagation_witness :
    (hasSnapshotData dbC5 sC5.Number sC5.Hash).1 = false ∧
    dbC5.appendFails sC5.Number sC5.Hash = true ∧
    store dbC5 sC5 = (dbC5, none) :=
  ⟨rfl, rfl, store_forced_no_error_propagation dbC5 sC5 rfl rfl⟩


/-- C4: when, after a header's vote is cast, the beneficiary's tally strictly
exceeds `len(signers)/2` computed over the pre-change signer set (the
pre-majority phase `applyHeaderPre` never alters `Signers`, so that count
equals the original snapshot's), the majority resolution of that header —
and nothing else in the per-header step — changes the signer set exactly
once: the beneficiary is inserted when the tally's authorize flag is set
and removed otherwise, every chronological vote whose candidate is the
beneficiary is removed, and the beneficiary's tally entry is deleted; when
the threshold is not met the resolution returns the snapshot untouched. -/
theorem apply_majority_resolution (epoch : Nat) (s s1 : Snapshot) (h : Header) (t : Tally)
    (hpre : applyHeaderPre epoch s h = (s1, none))
    (ht : mapLookup s1.Tally h.Coinbase = some t) :
    applyHeader epoch s h = (resolveMajority h.Number h.Coinbase s1, none) ∧
    s1.Signers = s.Signers ∧
    (((s1.Signers.length / 2 : Nat) : Int) < t.Votes →
      mapLookup (resolveMajority h.Number h.Coinbase s1).Tally h.Coinbase = none ∧
      (∀ v ∈ (resolveMajority h.Number h.Coinbase s1).Votes, v.Address ≠ h.Coinbase) ∧
      (∀ a : Address, a ∈ (resolveMajority h.Number h.Coinbase s1).Signers ↔
        (if t.Authorize then a ∈ s1.Signers ∨ a = h.Coinbase
         else a ∈ s1.Signers ∧ a ≠ h.Coinbase))) ∧
    (¬(((s1.Signers.length / 2 : Nat) : Int) < t.Votes) →
      resolveMajority h.Number h.Coinbase s1 = s1) := by
  have hsig := applyHeaderPre_Signers epoch s h
  rw [hpre] at hsig
  refine ⟨?_, hsig, ?_, ?_⟩
  · unfold applyHeader
    rw [hpre]
  · intro hmaj
    have hres : resolveMajority h.Number h.Coinbase s1 =
        (let sp :=
          if t.Authorize then { s1 with Signers := setInsert s1.Signers h.Coinbase }
          else
            purgeVotesBySigner h.Coinbase
              (evictRecent h.Number { s1 with Signers := setErase s1.Signers h.Coinbase })
         let spp := { sp with Votes := sp.Votes.filter (fun v => !(v.Address = h.Coinbase : Bool)) }
         { spp with Tally := mapErase spp.Tally h.Coinbase }) := by
      unfold resolveMajority
      rw [ht]
      dsimp only
      rw [if_pos hmaj]
    rw [hres]
    dsimp only
    refine ⟨mapLookup_mapErase _ _, ?_, ?_⟩
    · intro v hv
      have h2 := (List.mem_filter.mp hv).2
      simp only [Bool.not_eq_true', decide_eq_false_iff_not] at h2
      exact h2
    · intro a
      cases hauth : t.Authorize with
      | true =>
        simp only [if_true]
        exact mem_setInsert
      | false =>
        simp only [Bool.false_eq_true, if_false]
        show a ∈ (purgeVotesBySigner h.Coinbase
            (evictRecent h.Number { s1 with Signers := setErase s1.Signers h.Coinbase })).Signers ↔ _
        rw [purgeVotesBySigner_Signers, evictRecent_Signers]
        exact mem_setErase
  · intro hn
    unfold resolveMajority
    rw [ht]
    dsimp only
    rw [if_neg hn]

/-- Witness for C4 at the concrete snapshot `sC4` (signers {1, 2, 3}, one
pending authorize-vote for 10) and header `hC4` (block 2 signed by 3, also
voting to authorize 10): the tally reaches 2 > 3/2 and candidate 10 joins
the signer set. -/
theorem apply_majority_resolution_witness :
    applyHeaderPre 100 sC4 hC4 = (s1C4, none) ∧
    mapLookup s1C4.Tally hC4.Coinbase = some ⟨true, 2⟩ ∧
    (applyHeader 100 sC4 hC4 = (resolveMajority hC4.Number hC4.Coinbase s1C4, none) ∧
     s1C4.Signers = sC4.Signers ∧
     (((s1C4.Signers.length / 2 : Nat) : Int) < (⟨true, 2⟩ : Tally).Votes →
       mapLookup (resolveMajority hC4.Number hC4.Coinbase s1C4).Tally hC4.Coinbase = none ∧
       (∀ v ∈ (resolveMajority hC4.Number hC4.Coinbase s1C4).Votes, v.Address ≠ hC4.Coinbase) ∧
       (∀ a : Address, a ∈ (resolveMajority hC4.Number hC4.Coinbase s1C4).Signers ↔
         (if (⟨true, 2⟩ : Tally).Authorize then a ∈ s1C4.Signers ∨ a = hC4.Coinbase
          else a ∈ s1C4.Signers ∧ a ≠ hC4.Coinbase))) ∧
     (¬(((s1C4.Signers.length / 2 : Nat) : Int) < (⟨true, 2⟩ : Tally).Votes) →
       resolveMajority hC4.Number hC4.Coinbase s1C4 = s1C4)) :=
  ⟨by decide, by decide,
   apply_majority_resolution 100 sC4 s1C4 hC4 ⟨true, 2⟩ (by decide) (by decide)⟩

end Clique
